import Mathlib

/-!
Verification of the streaming audio front end in `src/main.js` of the Mark
repository.  The embedded fragment is the mic-data handler (lines 84–117),
the module state (lines 76–78), `startUserSpeechRecording` (120–124),
`stopUserSpeechRecording` (127–137) and `saveAudioToFile` (140–153).

Modelling conventions:
* raw bytes are `Nat` (values 0–255); a chunk delivered by the mic is a
  `List Nat`; `Buffer.concat` is list append / `List.flatten`;
* the Porcupine scorer is an opaque oracle `wake : List Int → Bool`
  (`keywordIndex >= 0` becomes `true`) applied to the decoded 16-bit PCM
  frame, exactly as built by the `readInt16LE` loop of lines 93–96;
* the node-vad call is an opaque oracle `vad : List Nat → VadOutcome`
  applied to the whole chunk (the code classifies the raw chunk, not a
  frame).  A resolved promise is `VadOutcome.event e` with `e` one of the
  four node-vad events; a rejected promise is `VadOutcome.failure`.  The
  handler reacts only to `VadOutcome.event VadEvent.silence`
  (`res === VAD.Event.SILENCE`, line 111) and installs no rejection handler;
* promise resolution is serialised: the VAD result for a chunk is observed
  before the next chunk is handled, matching the ordering model of §5 of
  the specification;
* the `while` loop of lines 89–105 is total because each iteration removes
  `2 * frameLength` bytes; it is embedded with a fuel argument bounded by
  the buffer length, and a fuel-irrelevance lemma shows the embedding
  computes the loop's result.
-/

namespace Mark

/-- The four events node-vad can resolve with (`VAD.Event`). -/
inductive VadEvent where
  | error : VadEvent
  | silence : VadEvent
  | voice : VadEvent
  | noise : VadEvent
deriving DecidableEq, Repr

/-- Outcome of one `vad.processAudio` call: a resolved event, or a rejected
promise (the classifier being unavailable). -/
inductive VadOutcome where
  | event : VadEvent → VadOutcome
  | failure : VadOutcome
deriving DecidableEq, Repr

/-- Outcome of the `wav.FileWriter` handoff inside `saveAudioToFile`. -/
inductive IOOutcome where
  | ok : IOOutcome
  | ioError : IOOutcome
deriving DecidableEq, Repr

/-- The module-level mutable state of `src/main.js` lines 76–78:
`isRecording`, `speechBuffer` (the list of raw chunks pushed while
recording, oldest first) and `audioBuffer` (the residual bytes of the
frame segmenter). -/
structure MicState where
  isRecording : Bool
  speechBuffer : List (List Nat)
  audioBuffer : List Nat
deriving DecidableEq, Repr

/-- Initial state (lines 76–78): not recording, both buffers empty. -/
def initState : MicState := ⟨false, [], []⟩

/-- Observable output of one invocation of the data handler:
the frames handed to `porcupine.process` this step (in order), whether the
wake branch fired (`startUserSpeechRecording` reached), whether the silence
branch fired (`stopUserSpeechRecording` reached), and the audio data handed
to `saveAudioToFile` if finalization ran. -/
structure StepOut where
  framesScanned : List (List Nat)
  wakeFired : Bool
  silenceFired : Bool
  finalized : Option (List Nat)
deriving DecidableEq, Repr

/-- `frame.readInt16LE(i * 2)`: two bytes, little endian, decoded as a
signed 16-bit integer. -/
def int16OfLE (lo hi : Nat) : Int :=
  let u : Nat := lo % 256 + 256 * (hi % 256)
  if u < 32768 then (u : Int) else (u : Int) - 65536

/-- The decoding loop of lines 93–96: a byte buffer becomes the PCM
`Int16Array` handed to `porcupine.process`. -/
def pcmOfBytes : List Nat → List Int
  | b0 :: b1 :: rest => int16OfLE b0 b1 :: pcmOfBytes rest
  | _ => []

/-- The `while` loop of lines 89–105, with explicit fuel (each iteration
consumes `2 * fl` bytes, so any fuel of at least `buf.length` computes the
loop).  Returns the frames handed to the scorer in order, the remaining
`audioBuffer`, and whether the wake word was detected (in which case the
loop `break`s immediately after the detecting frame). -/
def wakeScanAux (wake : List Int → Bool) (fl : Nat) :
    Nat → List Nat → List (List Nat) × List Nat × Bool
  | 0, buf => ([], buf, false)
  | fuel + 1, buf =>
    if 0 < fl ∧ 2 * fl ≤ buf.length then
      let frame := buf.take (2 * fl)
      let rest := buf.drop (2 * fl)
      if wake (pcmOfBytes frame) then
        ([frame], rest, true)
      else
        let r := wakeScanAux wake fl fuel rest
        (frame :: r.1, r.2.1, r.2.2)
    else ([], buf, false)

/-- The wake-scanning loop applied to the current `audioBuffer` contents,
with enough fuel to run to completion. -/
def wakeScanLoop (wake : List Int → Bool) (fl : Nat) (buf : List Nat) :
    List (List Nat) × List Nat × Bool :=
  wakeScanAux wake fl buf.length buf

/-- `startUserSpeechRecording` (lines 120–124): sets `isRecording` and
clears `speechBuffer`; `audioBuffer` is untouched. -/
def startUserSpeechRecording (s : MicState) : MicState :=
  ⟨true, [], s.audioBuffer⟩

/-- `stopUserSpeechRecording` (lines 127–137): clears `isRecording`,
concatenates `speechBuffer` into `audioData` and hands it on.  Note that
`speechBuffer` itself is NOT cleared here (it is cleared only by the next
`startUserSpeechRecording`), and `audioBuffer` is untouched.  Returns the
new state together with the `audioData` handed to `saveAudioToFile`. -/
def stopUserSpeechRecording (s : MicState) : MicState × List Nat :=
  (⟨false, s.speechBuffer, s.audioBuffer⟩, s.speechBuffer.flatten)

/-- `saveAudioToFile` (lines 140–153): writes the data through a
`wav.FileWriter`.  On success the `finish` callback fires and the segment
reaches `processUserSpeech`; if the writer fails, the callback never runs
and nothing is handed on.  The writer accepts any data, including an empty
buffer — there is no guard on zero-length input. -/
def saveAudioToFile (io : IOOutcome) (audioData : List Nat) : Option (List Nat) :=
  match io with
  | IOOutcome.ok => some audioData
  | IOOutcome.ioError => none

/-- `stopUserSpeechRecording` followed by `saveAudioToFile`, with the
writer outcome made explicit: the state reset happens in
`stopUserSpeechRecording` before the writer runs, so it does not depend on
`io`. -/
def stopAndSave (io : IOOutcome) (s : MicState) : MicState × Option (List Nat) :=
  let r := stopUserSpeechRecording s
  (r.1, saveAudioToFile io r.2)

/-- One invocation of the `micInputStream.on data` handler
(lines 84–117) on state `s` with incoming chunk `data`. -/
def micDataStep (wake : List Int → Bool) (vad : List Nat → VadOutcome)
    (fl : Nat) (s : MicState) (data : List Nat) : MicState × StepOut :=
  if s.isRecording then
    let s1 : MicState := ⟨true, s.speechBuffer ++ [data], s.audioBuffer⟩
    match vad data with
    | VadOutcome.event VadEvent.silence =>
      let r := stopUserSpeechRecording s1
      (r.1, ⟨[], false, true, some r.2⟩)
    | _ => (s1, ⟨[], false, false, none⟩)
  else
    let d := wakeScanLoop wake fl (s.audioBuffer ++ data)
    if d.2.2 then
      (startUserSpeechRecording ⟨false, s.speechBuffer, d.2.1⟩,
       ⟨d.1, true, false, none⟩)
    else
      (⟨false, s.speechBuffer, d.2.1⟩, ⟨d.1, false, false, none⟩)

/-- Iterate the data handler over a list of incoming chunks, collecting the
per-step outputs in order. -/
def runSteps (wake : List Int → Bool) (vad : List Nat → VadOutcome)
    (fl : Nat) (s : MicState) : List (List Nat) → MicState × List StepOut
  | [] => (s, [])
  | c :: cs =>
    let r := micDataStep wake vad fl s c
    let rr := runSteps wake vad fl r.1 cs
    (rr.1, r.2 :: rr.2)

/-- All frames handed to the wake scorer over a run, in order. -/
def scannedFrames (outs : List StepOut) : List (List Nat) :=
  (outs.map StepOut.framesScanned).flatten

/-! ### Properties of the wake-scanning loop -/

/-- Any fuel of at least `buf.length` computes the same result: the fuel is
an artifact of the embedding, not of the loop. -/
theorem wakeScanAux_congr (wake : List Int → Bool) (fl : Nat) :
    ∀ fuel₁ fuel₂ : Nat, ∀ buf : List Nat,
      buf.length ≤ fuel₁ → buf.length ≤ fuel₂ →
      wakeScanAux wake fl fuel₁ buf = wakeScanAux wake fl fuel₂ buf := by
  intro fuel₁
  induction fuel₁ with
  | zero =>
    intro fuel₂ buf h1 h2
    have hb : buf.length = 0 := Nat.le_zero.mp h1
    cases fuel₂ with
    | zero => rfl
    | succ m =>
      have hg : ¬ (0 < fl ∧ 2 * fl ≤ buf.length) := by omega
      simp [wakeScanAux, hg]
  | succ n ih =>
    intro fuel₂ buf h1 h2
    cases fuel₂ with
    | zero =>
      have hb : buf.length = 0 := Nat.le_zero.mp h2
      have hg : ¬ (0 < fl ∧ 2 * fl ≤ buf.length) := by omega
      simp [wakeScanAux, hg]
    | succ m =>
      by_cases hg : 0 < fl ∧ 2 * fl ≤ buf.length
      · have hd : (buf.drop (2 * fl)).length = buf.length - 2 * fl :=
          List.length_drop (2 * fl) buf
        have hr1 : (buf.drop (2 * fl)).length ≤ n := by omega
        have hr2 : (buf.drop (2 * fl)).length ≤ m := by omega
        simp only [wakeScanAux, hg, if_true]
        rw [ih m (buf.drop (2 * fl)) hr1 hr2]
      · simp [wakeScanAux, hg]

/-- When fewer than `2 * fl` bytes are buffered the loop body never runs. -/
theorem wakeScanLoop_stop (wake : List Int → Bool) (fl : Nat) (buf : List Nat)
    (hg : ¬ (0 < fl ∧ 2 * fl ≤ buf.length)) :
    wakeScanLoop wake fl buf = ([], buf, false) := by
  unfold wakeScanLoop
  rcases hn : buf.length with _ | n
  · simp [wakeScanAux]
  · rw [hn] at hg
    simp [wakeScanAux, hn, hg]

/-- One unfolding of the wake-scanning loop when a full frame is buffered. -/
theorem wakeScanLoop_step (wake : List Int → Bool) (fl : Nat) (buf : List Nat)
    (hfl : 0 < fl) (hlen : 2 * fl ≤ buf.length) :
    wakeScanLoop wake fl buf =
      (if wake (pcmOfBytes (buf.take (2 * fl))) then
        ([buf.take (2 * fl)], buf.drop (2 * fl), true)
      else
        ((buf.take (2 * fl)) :: (wakeScanLoop wake fl (buf.drop (2 * fl))).1,
         (wakeScanLoop wake fl (buf.drop (2 * fl))).2.1,
         (wakeScanLoop wake fl (buf.drop (2 * fl))).2.2)) := by
  unfold wakeScanLoop
  have hd : (buf.drop (2 * fl)).length = buf.length - 2 * fl :=
    List.length_drop (2 * fl) buf
  obtain ⟨n, hn⟩ : ∃ n, buf.length = n + 1 := ⟨buf.length - 1, by omega⟩
  have hle : 2 * fl ≤ n + 1 := by omega
  rw [hn]
  simp only [wakeScanAux, hn, hfl, hle, and_self, and_true, true_and, if_true]
  rw [wakeScanAux_congr wake fl n (buf.drop (2 * fl)).length (buf.drop (2 * fl))
        (by omega) le_rfl]

/-- The frames produced by the loop, followed by the remaining buffer,
reconstruct the input exactly: no byte is dropped, duplicated or
reordered. -/
theorem wakeScanAux_flatten (wake : List Int → Bool) (fl : Nat) :
    ∀ fuel : Nat, ∀ buf : List Nat,
      ((wakeScanAux wake fl fuel buf).1).flatten ++ (wakeScanAux wake fl fuel buf).2.1 = buf := by
  intro fuel
  induction fuel with
  | zero => intro buf; simp [wakeScanAux]
  | succ n ih =>
    intro buf
    by_cases hg : 0 < fl ∧ 2 * fl ≤ buf.length
    · by_cases hw : wake (pcmOfBytes (buf.take (2 * fl)))
      · simp [wakeScanAux, hg, hw]
      · simp only [wakeScanAux, hg, and_self, if_true, hw, if_false,
          Bool.false_eq_true, List.flatten_cons]
        rw [List.append_assoc, ih (buf.drop (2 * fl)), List.take_append_drop]
    · simp [wakeScanAux, hg]

/-- Every frame produced by the loop holds exactly `2 * fl` bytes
(`frameLength` 16-bit samples): no partial frame is ever emitted. -/
theorem wakeScanAux_frameLen (wake : List Int → Bool) (fl : Nat) :
    ∀ fuel : Nat, ∀ buf : List Nat, ∀ f ∈ (wakeScanAux wake fl fuel buf).1,
      f.length = 2 * fl := by
  intro fuel
  induction fuel with
  | zero => intro buf f hf; simp [wakeScanAux] at hf
  | succ n ih =>
    intro buf f hf
    by_cases hg : 0 < fl ∧ 2 * fl ≤ buf.length
    · have htake : (buf.take (2 * fl)).length = 2 * fl := by
        rw [List.length_take]; omega
      by_cases hw : wake (pcmOfBytes (buf.take (2 * fl)))
      · simp [wakeScanAux, hg, hw] at hf
        rw [hf, htake]
      · simp only [wakeScanAux, hg, and_self, if_true, hw, if_false,
          Bool.false_eq_true, List.mem_cons] at hf
        rcases hf with hf | hf
        · rw [hf, htake]
        · exact ih (buf.drop (2 * fl)) f hf
    · simp [wakeScanAux, hg] at hf

/-- If the scorer never reports a detection, the loop never fires. -/
theorem wakeScanAux_nofire (wake : List Int → Bool) (fl : Nat)
    (hw : ∀ p, wake p = false) :
    ∀ fuel : Nat, ∀ buf : List Nat, (wakeScanAux wake fl fuel buf).2.2 = false := by
  intro fuel
  induction fuel with
  | zero => intro buf; simp [wakeScanAux]
  | succ n ih =>
    intro buf
    by_cases hg : 0 < fl ∧ 2 * fl ≤ buf.length
    · simp only [wakeScanAux, hg, and_self, if_true, hw, if_false,
        Bool.false_eq_true]
      exact ih (buf.drop (2 * fl))
    · simp [wakeScanAux, hg]

/-- When the loop finishes without a detection, fewer than a full frame's
worth of bytes remains in the residual buffer. -/
theorem wakeScanLoop_residual_lt (wake : List Int → Bool) (fl : Nat)
    (hfl : 0 < fl) :
    ∀ buf : List Nat, (wakeScanLoop wake fl buf).2.2 = false →
      ((wakeScanLoop wake fl buf).2.1).length < 2 * fl := by
  have H : ∀ n : Nat, ∀ buf : List Nat, buf.length ≤ n →
      (wakeScanLoop wake fl buf).2.2 = false →
      ((wakeScanLoop wake fl buf).2.1).length < 2 * fl := by
    intro n
    induction n with
    | zero =>
      intro buf hb _
      have hg : ¬ (0 < fl ∧ 2 * fl ≤ buf.length) := by omega
      rw [wakeScanLoop_stop wake fl buf hg]
      show buf.length < 2 * fl
      omega
    | succ n ih =>
      intro buf hb hnf
      by_cases hg : 0 < fl ∧ 2 * fl ≤ buf.length
      · rw [wakeScanLoop_step wake fl buf hfl hg.2] at hnf ⊢
        by_cases hw : wake (pcmOfBytes (buf.take (2 * fl)))
        · simp [hw] at hnf
        · simp only [hw, if_false, Bool.false_eq_true] at hnf ⊢
          have hd : (buf.drop (2 * fl)).length = buf.length - 2 * fl :=
            List.length_drop (2 * fl) buf
          exact ih (buf.drop (2 * fl)) (by omega) hnf
      · rw [wakeScanLoop_stop wake fl buf hg]
        have h2 : ¬ (2 * fl ≤ buf.length) := fun h => hg ⟨hfl, h⟩
        show buf.length < 2 * fl
        omega
  intro buf
  exact H buf.length buf le_rfl

/-! ### Characterization of one handler invocation -/

/-- Recording branch, silence resolved: the chunk is first pushed, then
`stopUserSpeechRecording` runs — mode returns to listening, the
concatenation of every pushed chunk (triggering chunk included) is handed
to `saveAudioToFile`, and neither `speechBuffer` nor `audioBuffer` is
cleared. -/
theorem micDataStep_recording_silence (wake : List Int → Bool)
    (vad : List Nat → VadOutcome) (fl : Nat) (s : MicState) (data : List Nat)
    (hrec : s.isRecording = true)
    (hv : vad data = VadOutcome.event VadEvent.silence) :
    micDataStep wake vad fl s data =
      (⟨false, s.speechBuffer ++ [data], s.audioBuffer⟩,
       ⟨[], false, true, some ((s.speechBuffer ++ [data]).flatten)⟩) := by
  simp [micDataStep, hrec, hv, stopUserSpeechRecording]

/-- Recording branch, anything other than a resolved SILENCE (speech,
noise, the ERROR event, or a rejected promise): the chunk is pushed and
nothing else happens — in particular a classifier failure does not stop
the recording, because line 110's promise has no rejection handler. -/
theorem micDataStep_recording_not_silence (wake : List Int → Bool)
    (vad : List Nat → VadOutcome) (fl : Nat) (s : MicState) (data : List Nat)
    (hrec : s.isRecording = true)
    (hv : vad data ≠ VadOutcome.event VadEvent.silence) :
    micDataStep wake vad fl s data =
      (⟨true, s.speechBuffer ++ [data], s.audioBuffer⟩,
       ⟨[], false, false, none⟩) := by
  rcases he : vad data with e | _
  · cases e
    · simp [micDataStep, hrec, he]
    · rw [he] at hv; exact absurd rfl hv
    · simp [micDataStep, hrec, he]
    · simp [micDataStep, hrec, he]
  · simp [micDataStep, hrec, he]

/-- Listening branch: the chunk is appended to the residual buffer, the
wake loop drains complete frames from it, and on detection the state moves
to recording with a cleared `speechBuffer` and the post-frame residue kept
in `audioBuffer`. -/
theorem micDataStep_listening (wake : List Int → Bool)
    (vad : List Nat → VadOutcome) (fl : Nat) (s : MicState) (data : List Nat)
    (hrec : s.isRecording = false) :
    micDataStep wake vad fl s data =
      (if (wakeScanLoop wake fl (s.audioBuffer ++ data)).2.2 then
        (⟨true, [], (wakeScanLoop wake fl (s.audioBuffer ++ data)).2.1⟩,
         ⟨(wakeScanLoop wake fl (s.audioBuffer ++ data)).1, true, false, none⟩)
      else
        (⟨false, s.speechBuffer, (wakeScanLoop wake fl (s.audioBuffer ++ data)).2.1⟩,
         ⟨(wakeScanLoop wake fl (s.audioBuffer ++ data)).1, false, false, none⟩)) := by
  simp only [micDataStep, hrec, Bool.false_eq_true, if_false,
    startUserSpeechRecording]

/-- A wake event can only be raised from the listening branch. -/
theorem micDataStep_wake_needs_listening (wake : List Int → Bool)
    (vad : List Nat → VadOutcome) (fl : Nat) (s : MicState) (data : List Nat)
    (hrec : s.isRecording = true) :
    (micDataStep wake vad fl s data).2.wakeFired = false := by
  by_cases hv : vad data = VadOutcome.event VadEvent.silence
  · rw [micDataStep_recording_silence wake vad fl s data hrec hv]
  · rw [micDataStep_recording_not_silence wake vad fl s data hrec hv]

/-- A step that raises a wake event leaves the machine recording. -/
theorem micDataStep_wakeFired_post (wake : List Int → Bool)
    (vad : List Nat → VadOutcome) (fl : Nat) (s : MicState) (data : List Nat)
    (hfire : (micDataStep wake vad fl s data).2.wakeFired = true) :
    (micDataStep wake vad fl s data).1.isRecording = true := by
  rcases hrec : s.isRecording with _ | _
  · rw [micDataStep_listening wake vad fl s data hrec] at hfire ⊢
    by_cases hd : (wakeScanLoop wake fl (s.audioBuffer ++ data)).2.2
    · simp [hd]
    · simp [hd] at hfire
  · rw [micDataStep_wake_needs_listening wake vad fl s data hrec] at hfire
    exact absurd hfire (by simp)

/-- A recording step without a silence event stays recording. -/
theorem micDataStep_stay_recording (wake : List Int → Bool)
    (vad : List Nat → VadOutcome) (fl : Nat) (s : MicState) (data : List Nat)
    (hrec : s.isRecording = true)
    (hns : (micDataStep wake vad fl s data).2.silenceFired = false) :
    (micDataStep wake vad fl s data).1.isRecording = true := by
  by_cases hv : vad data = VadOutcome.event VadEvent.silence
  · rw [micDataStep_recording_silence wake vad fl s data hrec hv] at hns
    exact absurd hns (by simp)
  · rw [micDataStep_recording_not_silence wake vad fl s data hrec hv]

/-- Any recording step (silence or not) leaves `audioBuffer` untouched and
hands no frame to the wake scorer. -/
theorem micDataStep_recording_residual (wake : List Int → Bool)
    (vad : List Nat → VadOutcome) (fl : Nat) (s : MicState) (data : List Nat)
    (hrec : s.isRecording = true) :
    (micDataStep wake vad fl s data).1.audioBuffer = s.audioBuffer ∧
    (micDataStep wake vad fl s data).2.framesScanned = [] := by
  by_cases hv : vad data = VadOutcome.event VadEvent.silence
  · rw [micDataStep_recording_silence wake vad fl s data hrec hv]
    exact ⟨rfl, rfl⟩
  · rw [micDataStep_recording_not_silence wake vad fl s data hrec hv]
    exact ⟨rfl, rfl⟩

/-! ### Characterization of runs -/

theorem runSteps_nil (wake : List Int → Bool) (vad : List Nat → VadOutcome)
    (fl : Nat) (s : MicState) : runSteps wake vad fl s [] = (s, []) := rfl

theorem runSteps_cons (wake : List Int → Bool) (vad : List Nat → VadOutcome)
    (fl : Nat) (s : MicState) (c : List Nat) (cs : List (List Nat)) :
    runSteps wake vad fl s (c :: cs) =
      ((runSteps wake vad fl (micDataStep wake vad fl s c).1 cs).1,
       (micDataStep wake vad fl s c).2 ::
         (runSteps wake vad fl (micDataStep wake vad fl s c).1 cs).2) := by
  simp only [runSteps]

/-- Splitting a run of chunks. -/
theorem runSteps_append (wake : List Int → Bool) (vad : List Nat → VadOutcome)
    (fl : Nat) :
    ∀ (as bs : List (List Nat)) (s : MicState),
      runSteps wake vad fl s (as ++ bs) =
        ((runSteps wake vad fl (runSteps wake vad fl s as).1 bs).1,
         (runSteps wake vad fl s as).2 ++
           (runSteps wake vad fl (runSteps wake vad fl s as).1 bs).2) := by
  intro as
  induction as with
  | nil => intro bs s; simp [runSteps]
  | cons c cs ih =>
    intro bs s
    simp only [List.cons_append, runSteps, List.append_eq, ih]

/-- A run produces one output per chunk. -/
theorem runSteps_length (wake : List Int → Bool) (vad : List Nat → VadOutcome)
    (fl : Nat) :
    ∀ (cs : List (List Nat)) (s : MicState),
      (runSteps wake vad fl s cs).2.length = cs.length := by
  intro cs
  induction cs with
  | nil => intro s; simp [runSteps]
  | cons c cs ih => intro s; simp [runSteps, ih]

/-- A recording phase in which no chunk classifies as SILENCE: every chunk
is appended to `speechBuffer` in arrival order, the machine stays
recording, and `audioBuffer` is untouched. -/
theorem runSteps_recording_no_silence (wake : List Int → Bool)
    (vad : List Nat → VadOutcome) (fl : Nat) :
    ∀ (cs : List (List Nat)) (s : MicState),
      s.isRecording = true →
      (∀ c ∈ cs, vad c ≠ VadOutcome.event VadEvent.silence) →
      runSteps wake vad fl s cs =
        (⟨true, s.speechBuffer ++ cs, s.audioBuffer⟩,
         cs.map (fun _ => ⟨[], false, false, none⟩)) := by
  intro cs
  induction cs with
  | nil =>
    intro s hrec _
    cases s with
    | mk r sb ab => simp_all [runSteps]
  | cons c cs ih =>
    intro s hrec hns
    simp only [runSteps]
    rw [micDataStep_recording_not_silence wake vad fl s c hrec
          (hns c (by simp))]
    rw [ih ⟨true, s.speechBuffer ++ [c], s.audioBuffer⟩ rfl
          (fun c' hc' => hns c' (by simp [hc']))]
    simp

/-- The decoded PCM frame has one sample per byte pair. -/
theorem pcmOfBytes_length : ∀ l : List Nat, (pcmOfBytes l).length = l.length / 2
  | [] => by simp [pcmOfBytes]
  | [b] => by simp [pcmOfBytes]
  | b0 :: b1 :: rest => by
    simp only [pcmOfBytes, List.length_cons]
    rw [pcmOfBytes_length rest]
    omega

/-- Flattening a list of equal-length lists multiplies the lengths. -/
theorem flatten_length_uniform :
    ∀ (l : List (List Nat)) (m : Nat), (∀ f ∈ l, f.length = m) →
      l.flatten.length = l.length * m
  | [], _, _ => by simp
  | f :: fs, m, h => by
    simp only [List.flatten_cons, List.length_append, List.length_cons]
    rw [h f (by simp), flatten_length_uniform fs m (fun g hg => h g (by simp [hg]))]
    ring

/-- If `n * M + r = K * M` with `r < M`, then `n = K` and `r = 0`. -/
theorem mul_add_eq_mul_unique {n r K M : Nat} (hM : 0 < M) (hr : r < M)
    (h : n * M + r = K * M) : n = K ∧ r = 0 := by
  have h1 : n ≤ K := Nat.le_of_mul_le_mul_right (Nat.le.intro h) hM
  have hlt : K * M < (n + 1) * M := by
    rw [Nat.succ_mul, ← h]
    exact Nat.add_lt_add_left hr (n * M)
  have h2 : K < n + 1 := lt_of_mul_lt_mul_right hlt (Nat.zero_le M)
  have hnk : n = K := by omega
  subst hnk
  have h0 : n * M + r = n * M + 0 := by rw [Nat.add_zero]; exact h
  exact ⟨rfl, Nat.add_left_cancel h0⟩

theorem wakeScanLoop_flatten (wake : List Int → Bool) (fl : Nat) (buf : List Nat) :
    ((wakeScanLoop wake fl buf).1).flatten ++ (wakeScanLoop wake fl buf).2.1 = buf :=
  wakeScanAux_flatten wake fl buf.length buf

theorem wakeScanLoop_frameLen (wake : List Int → Bool) (fl : Nat) (buf : List Nat) :
    ∀ f ∈ (wakeScanLoop wake fl buf).1, f.length = 2 * fl :=
  wakeScanAux_frameLen wake fl buf.length buf

theorem wakeScanLoop_nofire (wake : List Int → Bool) (fl : Nat)
    (hw : ∀ p, wake p = false) (buf : List Nat) :
    (wakeScanLoop wake fl buf).2.2 = false :=
  wakeScanAux_nofire wake fl hw buf.length buf

theorem scannedFrames_nil : scannedFrames [] = [] := rfl

theorem scannedFrames_cons (o : StepOut) (outs : List StepOut) :
    scannedFrames (o :: outs) = o.framesScanned ++ scannedFrames outs := by
  simp [scannedFrames]

/-- A listening phase in which the scorer never detects: the machine stays
listening, `speechBuffer` is untouched, the scanned frames followed by the
final residue reconstruct the initial residue plus all delivered bytes, and
every scanned frame holds exactly `2 * fl` bytes. -/
theorem runSteps_listening_nofire (wake : List Int → Bool)
    (vad : List Nat → VadOutcome) (fl : Nat) (hw : ∀ p, wake p = false) :
    ∀ (cs : List (List Nat)) (s : MicState), s.isRecording = false →
      (runSteps wake vad fl s cs).1.isRecording = false ∧
      (runSteps wake vad fl s cs).1.speechBuffer = s.speechBuffer ∧
      (scannedFrames (runSteps wake vad fl s cs).2).flatten ++
          (runSteps wake vad fl s cs).1.audioBuffer = s.audioBuffer ++ cs.flatten ∧
      (∀ f ∈ scannedFrames (runSteps wake vad fl s cs).2, f.length = 2 * fl) := by
  intro cs
  induction cs with
  | nil =>
    intro s hrec
    refine ⟨hrec, rfl, by simp [runSteps, scannedFrames], ?_⟩
    intro f hf
    simp [runSteps, scannedFrames] at hf
  | cons c cs ih =>
    intro s hrec
    have hnf : (wakeScanLoop wake fl (s.audioBuffer ++ c)).2.2 = false :=
      wakeScanLoop_nofire wake fl hw (s.audioBuffer ++ c)
    have hstep := micDataStep_listening wake vad fl s c hrec
    rw [hnf] at hstep
    simp only [Bool.false_eq_true, if_false] at hstep
    obtain ⟨h1, h2, h3, h4⟩ :=
      ih ⟨false, s.speechBuffer, (wakeScanLoop wake fl (s.audioBuffer ++ c)).2.1⟩ rfl
    simp only [runSteps, hstep, scannedFrames_cons]
    refine ⟨h1, h2, ?_, ?_⟩
    · rw [List.flatten_append, List.append_assoc, h3, ← List.append_assoc,
        wakeScanLoop_flatten wake fl (s.audioBuffer ++ c), List.flatten_cons,
        List.append_assoc]
    · intro f hf
      rcases List.mem_append.mp hf with hf | hf
      · exact wakeScanLoop_frameLen wake fl (s.audioBuffer ++ c) f hf
      · exact h4 f hf

/-- A listening phase in which the scorer never detects keeps the residual
buffer shorter than one frame. -/
theorem runSteps_listening_residual (wake : List Int → Bool)
    (vad : List Nat → VadOutcome) (fl : Nat) (hfl : 0 < fl)
    (hw : ∀ p, wake p = false) :
    ∀ (cs : List (List Nat)) (s : MicState), s.isRecording = false →
      s.audioBuffer.length < 2 * fl →
      ((runSteps wake vad fl s cs).1.audioBuffer).length < 2 * fl := by
  intro cs
  induction cs with
  | nil => intro s _ hlen; simpa [runSteps] using hlen
  | cons c cs ih =>
    intro s hrec hlen
    have hnf : (wakeScanLoop wake fl (s.audioBuffer ++ c)).2.2 = false :=
      wakeScanLoop_nofire wake fl hw (s.audioBuffer ++ c)
    have hstep := micDataStep_listening wake vad fl s c hrec
    rw [hnf] at hstep
    simp only [Bool.false_eq_true, if_false] at hstep
    simp only [runSteps, hstep]
    exact ih ⟨false, s.speechBuffer, (wakeScanLoop wake fl (s.audioBuffer ++ c)).2.1⟩
      rfl (wakeScanLoop_residual_lt wake fl hfl (s.audioBuffer ++ c) hnf)

/-- Once recording, as long as no silence event has fired, no wake event
fires either (the wake branch is never entered). -/
theorem runSteps_recording_no_wake (wake : List Int → Bool)
    (vad : List Nat → VadOutcome) (fl : Nat) :
    ∀ (cs : List (List Nat)) (s : MicState),
      s.isRecording = true →
      (∀ o ∈ (runSteps wake vad fl s cs).2, o.silenceFired = false) →
      ∀ o ∈ (runSteps wake vad fl s cs).2, o.wakeFired = false := by
  intro cs
  induction cs with
  | nil => intro s _ _ o ho; simp [runSteps] at ho
  | cons c cs ih =>
    intro s hrec hns o ho
    simp only [runSteps, List.mem_cons] at hns ho
    have hfirst : (micDataStep wake vad fl s c).2.silenceFired = false :=
      hns _ (Or.inl rfl)
    rcases ho with ho | ho
    · rw [ho]
      exact micDataStep_wake_needs_listening wake vad fl s c hrec
    · exact ih (micDataStep wake vad fl s c).1
        (micDataStep_stay_recording wake vad fl s c hrec hfirst)
        (fun o' ho' => hns o' (Or.inr ho')) o ho

/-- Throughout a recording phase — all steps up to and including the one
that (possibly) fires the silence event — `audioBuffer` is never
modified. -/
theorem runSteps_recording_residual (wake : List Int → Bool)
    (vad : List Nat → VadOutcome) (fl : Nat) :
    ∀ (cs : List (List Nat)) (s : MicState), s.isRecording = true →
      (∀ o ∈ ((runSteps wake vad fl s cs).2.dropLast), o.silenceFired = false) →
      (runSteps wake vad fl s cs).1.audioBuffer = s.audioBuffer := by
  intro cs
  induction cs with
  | nil => intro s _ _; rw [runSteps_nil]
  | cons c cs ih =>
    intro s hrec hns
    rw [runSteps_cons] at hns ⊢
    cases cs with
    | nil =>
      rw [runSteps_nil]
      exact (micDataStep_recording_residual wake vad fl s c hrec).1
    | cons c2 cs2 =>
      have hne : (runSteps wake vad fl (micDataStep wake vad fl s c).1 (c2 :: cs2)).2 ≠ [] := by
        intro h
        have hlen := runSteps_length wake vad fl (c2 :: cs2) (micDataStep wake vad fl s c).1
        rw [h] at hlen
        simp at hlen
      rw [List.dropLast_cons_of_ne_nil hne] at hns
      have h1 : (micDataStep wake vad fl s c).2.silenceFired = false :=
        hns _ (List.mem_cons_self _ _)
      have hrec1 := micDataStep_stay_recording wake vad fl s c hrec h1
      have h2 : ∀ o ∈ (runSteps wake vad fl (micDataStep wake vad fl s c).1
          (c2 :: cs2)).2.dropLast, o.silenceFired = false :=
        fun o ho => hns o (List.mem_cons_of_mem _ ho)
      exact (ih (micDataStep wake vad fl s c).1 hrec1 h2).trans
        (micDataStep_recording_residual wake vad fl s c hrec).1

/-! ### Claims -/

/-- C2: for every way of splitting an input byte sequence of total length
`K * frameLength * 2` bytes into chunks, if the wake scorer never reports
a detection, the frame segmenter feeds exactly `K` frames to the scorer,
each of exactly `frameLength` samples (`frameLength * 2` bytes), whose
concatenated bytes equal the original input bytes in order, with no frame
skipped, reordered or emitted with partial data, and nothing remains
buffered beyond the final partial frame (here: nothing at all, since the
total is an exact multiple of the frame size). -/
theorem frame_integrity (fl K : Nat) (hfl : 0 < fl)
    (wake : List Int → Bool) (hw : ∀ p, wake p = false)
    (vad : List Nat → VadOutcome) (cs : List (List Nat))
    (hlen : cs.flatten.length = K * (2 * fl)) :
    (scannedFrames (runSteps wake vad fl initState cs).2).length = K ∧
    (∀ f ∈ scannedFrames (runSteps wake vad fl initState cs).2,
      f.length = 2 * fl ∧ (pcmOfBytes f).length = fl) ∧
    (scannedFrames (runSteps wake vad fl initState cs).2).flatten = cs.flatten ∧
    (runSteps wake vad fl initState cs).1.audioBuffer = [] := by
  obtain ⟨h1, h2, h3, h4⟩ := runSteps_listening_nofire wake vad fl hw cs initState rfl
  have hres : ((runSteps wake vad fl initState cs).1.audioBuffer).length < 2 * fl := by
    refine runSteps_listening_residual wake vad fl hfl hw cs initState rfl ?_
    show ([] : List Nat).length < 2 * fl
    simp
    omega
  have h3' : (scannedFrames (runSteps wake vad fl initState cs).2).flatten ++
      (runSteps wake vad fl initState cs).1.audioBuffer = cs.flatten := by
    simpa [initState] using h3
  have hflat : (scannedFrames (runSteps wake vad fl initState cs).2).flatten.length =
      (scannedFrames (runSteps wake vad fl initState cs).2).length * (2 * fl) :=
    flatten_length_uniform _ _ h4
  have hsum : (scannedFrames (runSteps wake vad fl initState cs).2).length * (2 * fl) +
      ((runSteps wake vad fl initState cs).1.audioBuffer).length = K * (2 * fl) := by
    have hc := congrArg List.length h3'
    rw [List.length_append, hflat, hlen] at hc
    exact hc
  obtain ⟨hK, hr⟩ := mul_add_eq_mul_unique (by omega) hres hsum
  have hab : (runSteps wake vad fl initState cs).1.audioBuffer = [] :=
    List.length_eq_zero.mp hr
  refine ⟨hK, ?_, ?_, hab⟩
  · intro f hf
    refine ⟨h4 f hf, ?_⟩
    rw [pcmOfBytes_length, h4 f hf]
    omega
  · rw [hab, List.append_nil] at h3'
    exact h3'

/-- C2 witness: four total bytes delivered as chunks of sizes 1, 2, 1 with
`frameLength = 1` yield exactly the two frames `[1,2]` and `[3,4]`. -/
theorem frame_integrity_witness :
    (scannedFrames (runSteps (fun _ => false) (fun _ => VadOutcome.failure) 1
        initState [[1],[2,3],[4]]).2).length = 2 ∧
    (scannedFrames (runSteps (fun _ => false) (fun _ => VadOutcome.failure) 1
        initState [[1],[2,3],[4]]).2).flatten = [1,2,3,4] := by
  have h := frame_integrity 1 2 (by decide) (fun _ => false) (fun _ => rfl)
    (fun _ => VadOutcome.failure) [[1],[2,3],[4]] (by decide)
  exact ⟨h.1, (h.2.2.1).trans (by decide)⟩

/-- C5: once a wake event fires, no second wake event fires until the
session has returned to LISTENING (i.e. as long as no silence event has
fired), even if the scorer would return a detection on every subsequent
frame — the quantification over `wake` includes the always-true scorer. -/
theorem edge_triggered (wake : List Int → Bool) (vad : List Nat → VadOutcome)
    (fl : Nat) (s : MicState) (c : List Nat) (cs : List (List Nat))
    (hfire : (micDataStep wake vad fl s c).2.wakeFired = true)
    (hns : ∀ o ∈ (runSteps wake vad fl (micDataStep wake vad fl s c).1 cs).2,
      o.silenceFired = false) :
    ∀ o ∈ (runSteps wake vad fl (micDataStep wake vad fl s c).1 cs).2,
      o.wakeFired = false :=
  runSteps_recording_no_wake wake vad fl cs (micDataStep wake vad fl s c).1
    (micDataStep_wakeFired_post wake vad fl s c hfire) hns

/-- C5 witness: with an always-true scorer, after the wake event on the
first chunk the two following chunks raise no further wake event. -/
theorem edge_triggered_witness :
    ((runSteps (fun _ => true) (fun _ => VadOutcome.event VadEvent.voice) 1
        (micDataStep (fun _ => true) (fun _ => VadOutcome.event VadEvent.voice) 1
          initState [0,0]).1 [[1,1],[2,2]]).2.all
      (fun o => !o.wakeFired)) = true := by
  have h := edge_triggered (fun _ => true) (fun _ => VadOutcome.event VadEvent.voice) 1
    initState [0,0] [[1,1],[2,2]] (by decide) (by decide)
  refine List.all_eq_true.mpr ?_
  intro o ho
  simp [h o ho]

/-- C6: while RECORDING, a step raises the silence event, leaves RECORDING
and hands the accumulated audio to finalization exactly when the
classifier result for the arriving chunk is SILENCE — the first SILENCE
suffices (no debounce window), and no other classification triggers it. -/
theorem first_silence_finalizes (wake : List Int → Bool)
    (vad : List Nat → VadOutcome) (fl : Nat) (s : MicState) (c : List Nat)
    (hrec : s.isRecording = true) :
    ((micDataStep wake vad fl s c).2.silenceFired = true ∧
     (micDataStep wake vad fl s c).1.isRecording = false ∧
     (micDataStep wake vad fl s c).2.finalized =
       some ((s.speechBuffer ++ [c]).flatten))
    ↔ vad c = VadOutcome.event VadEvent.silence := by
  constructor
  · rintro ⟨h1, _, _⟩
    by_contra hv
    rw [micDataStep_recording_not_silence wake vad fl s c hrec hv] at h1
    exact absurd h1 (by simp)
  · intro hv
    rw [micDataStep_recording_silence wake vad fl s c hrec hv]
    exact ⟨rfl, rfl, rfl⟩

/-- C6 witness: a concrete SILENCE chunk fires the event, exits RECORDING
and finalizes the buffered audio plus the triggering chunk. -/
theorem first_silence_finalizes_witness :
    (micDataStep (fun _ => true) (fun _ => VadOutcome.event VadEvent.silence) 1
        ⟨true, [[1,1]], []⟩ [2,2]).2.silenceFired = true ∧
    (micDataStep (fun _ => true) (fun _ => VadOutcome.event VadEvent.silence) 1
        ⟨true, [[1,1]], []⟩ [2,2]).1.isRecording = false ∧
    (micDataStep (fun _ => true) (fun _ => VadOutcome.event VadEvent.silence) 1
        ⟨true, [[1,1]], []⟩ [2,2]).2.finalized = some [1,1,2,2] := by
  have h := (first_silence_finalizes (fun _ => true)
    (fun _ => VadOutcome.event VadEvent.silence) 1 ⟨true, [[1,1]], []⟩ [2,2] rfl).mpr rfl
  exact ⟨h.1, h.2.1, h.2.2.trans (by decide)⟩

/-- C1 counterexample: with `frameLength = 1` (frames of 2 bytes), the
chunk `[0,0,7,7]` triggers the wake word on its first frame `[0,0]`; the
bytes `[7,7]` — a complete frame of audio observed AFTER the
wake-triggering frame — stay in the residual `audioBuffer` because the
loop breaks, and are absent from the finalized segment, which is `[9,9]`
(the post-wake chunk alone) instead of the `[7,7] ++ [9,9]` the claim
requires. -/
theorem buffering_completeness_cex :
    (runSteps (fun _ => true) (fun _ => VadOutcome.event VadEvent.silence) 1
        initState [[0,0,7,7],[9,9]]).2 =
      [⟨[[0,0]], true, false, none⟩, ⟨[], false, true, some [9,9]⟩] ∧
    (runSteps (fun _ => true) (fun _ => VadOutcome.event VadEvent.silence) 1
        initState [[0,0,7,7],[9,9]]).1.audioBuffer = [7,7] ∧
    some ([9,9] : List Nat) ≠ some ([7,7] ++ [9,9]) := by decide

/-- C1 amended: the audio handed to finalization is exactly the
concatenation of the CHUNKS delivered after the wake-detecting chunk,
through and including the chunk that triggered the silence event, in
order, with no duplicates or gaps; bytes of the wake-detection chunk that
follow the wake-triggering frame are NOT included (they remain in the
segmenter's residual buffer). -/
theorem buffering_of_post_wake_chunks (wake : List Int → Bool)
    (vad : List Nat → VadOutcome) (fl : Nat) (s : MicState)
    (cs : List (List Nat)) (clast : List Nat)
    (hrec : s.isRecording = true) (hsb : s.speechBuffer = [])
    (hns : ∀ c ∈ cs, vad c ≠ VadOutcome.event VadEvent.silence)
    (hlast : vad clast = VadOutcome.event VadEvent.silence) :
    runSteps wake vad fl s (cs ++ [clast]) =
      (⟨false, cs ++ [clast], s.audioBuffer⟩,
       (cs.map fun _ => ⟨[], false, false, none⟩) ++
         [⟨[], false, true, some ((cs ++ [clast]).flatten)⟩]) := by
  rw [runSteps_append, runSteps_recording_no_silence wake vad fl cs s hrec hns,
    runSteps_cons,
    micDataStep_recording_silence wake vad fl ⟨true, s.speechBuffer ++ cs, s.audioBuffer⟩
      clast rfl hlast, runSteps_nil]
  simp [hsb]

/-- C1 amended witness: from a freshly woken state with residual `[7,7]`,
a SPEECH chunk and then a SILENCE chunk finalize exactly those two chunks,
leaving the residual out. -/
theorem buffering_of_post_wake_chunks_witness :
    runSteps (fun _ => true)
      (fun c => if c = [9,9] then VadOutcome.event VadEvent.silence
                else VadOutcome.event VadEvent.voice) 1
      ⟨true, [], [7,7]⟩ ([[1,1]] ++ [[9,9]]) =
      (⟨false, [[1,1],[9,9]], [7,7]⟩,
       [⟨[], false, false, none⟩, ⟨[], false, true, some [1,1,9,9]⟩]) := by
  have h := buffering_of_post_wake_chunks (fun _ => true)
    (fun c => if c = [9,9] then VadOutcome.event VadEvent.silence
              else VadOutcome.event VadEvent.voice) 1
    ⟨true, [], [7,7]⟩ [[1,1]] [9,9] rfl rfl (by decide) (by decide)
  exact h.trans (by decide)

/-- C3 counterexample: a full reachable session (wake on `[1,1]`, silence
on `[2,2]`) ends with `mode = LISTENING` but `speechBuffer = [[2,2]]` —
`stopUserSpeechRecording` (lines 127–137) never clears `speechBuffer`, so
the invariant fails immediately after finalization. -/
theorem listening_empty_buffer_cex :
    (runSteps (fun _ => true) (fun _ => VadOutcome.event VadEvent.silence) 1
        initState [[1,1],[2,2]]).1 = ⟨false, [[2,2]], []⟩ ∧
    (⟨false, [[2,2]], []⟩ : MicState).isRecording = false ∧
    (⟨false, [[2,2]], []⟩ : MicState).speechBuffer ≠ [] := by decide

/-- C3 amended: `speechBuffer` is cleared at the WAKE transition
(`startUserSpeechRecording`), not at finalization; the silence transition
returns to LISTENING keeping the recorded chunks in `speechBuffer` (they
are harmless stale data, overwritten by the next wake event). -/
theorem speech_buffer_cleared_at_wake_not_finalize (wake : List Int → Bool)
    (vad : List Nat → VadOutcome) (fl : Nat) (s : MicState) (c : List Nat) :
    ((micDataStep wake vad fl s c).2.wakeFired = true →
      (micDataStep wake vad fl s c).1.speechBuffer = []) ∧
    (s.isRecording = true → vad c = VadOutcome.event VadEvent.silence →
      (micDataStep wake vad fl s c).1 =
        ⟨false, s.speechBuffer ++ [c], s.audioBuffer⟩) := by
  constructor
  · intro hfire
    rcases hrec : s.isRecording with _ | _
    · rw [micDataStep_listening wake vad fl s c hrec] at hfire ⊢
      by_cases hd : (wakeScanLoop wake fl (s.audioBuffer ++ c)).2.2
      · simp [hd]
      · simp [hd] at hfire
    · rw [micDataStep_wake_needs_listening wake vad fl s c hrec] at hfire
      exact absurd hfire (by simp)
  · intro hrec hv
    rw [micDataStep_recording_silence wake vad fl s c hrec hv]

/-- C3 amended witness: a wake step clears the stale buffer; a silence
step returns to LISTENING with the chunks still buffered. -/
theorem speech_buffer_cleared_at_wake_not_finalize_witness :
    (micDataStep (fun _ => true) (fun _ => VadOutcome.failure) 1
        ⟨false, [[3]], []⟩ [0,0]).1.speechBuffer = [] ∧
    (micDataStep (fun _ => true) (fun _ => VadOutcome.event VadEvent.silence) 1
        ⟨true, [[5,5]], [9]⟩ [2,2]).1 = ⟨false, [[5,5],[2,2]], [9]⟩ := by
  constructor
  · exact (speech_buffer_cleared_at_wake_not_finalize (fun _ => true)
      (fun _ => VadOutcome.failure) 1 ⟨false, [[3]], []⟩ [0,0]).1 (by decide)
  · exact ((speech_buffer_cleared_at_wake_not_finalize (fun _ => true)
      (fun _ => VadOutcome.event VadEvent.silence) 1 ⟨true, [[5,5]], [9]⟩ [2,2]).2
        rfl rfl).trans (by decide)

/-- C4 counterexample: after a wake event, a chunk whose classifier call
fails (`VadOutcome.failure`, a rejected promise) raises NO silence event
and the machine STAYS in RECORDING — line 110's promise has no rejection
handler, so the claimed fail-safe SILENCE default does not exist. -/
theorem failsafe_silence_cex :
    runSteps (fun _ => true) (fun _ => VadOutcome.failure) 1 initState
        [[1,1],[3,3]] =
      (⟨true, [[3,3]], []⟩,
       [⟨[[1,1]], true, false, none⟩, ⟨[], false, false, none⟩]) ∧
    (⟨true, [[3,3]], []⟩ : MicState).isRecording = true ∧
    (⟨[], false, false, none⟩ : StepOut).silenceFired = false := by decide

/-- C4 amended: if the classifier call fails during RECORDING, the failed
observation is simply dropped — no silence event fires, the chunk stays
buffered, and the session remains in RECORDING until some later chunk is
successfully classified as SILENCE. -/
theorem classifier_failure_keeps_recording (wake : List Int → Bool)
    (vad : List Nat → VadOutcome) (fl : Nat) (s : MicState) (c : List Nat)
    (hrec : s.isRecording = true) (hv : vad c = VadOutcome.failure) :
    micDataStep wake vad fl s c =
      (⟨true, s.speechBuffer ++ [c], s.audioBuffer⟩,
       ⟨[], false, false, none⟩) :=
  micDataStep_recording_not_silence wake vad fl s c hrec (by simp [hv])

/-- C4 amended witness. -/
theorem classifier_failure_keeps_recording_witness :
    micDataStep (fun _ => true) (fun _ => VadOutcome.failure) 1
      ⟨true, [], []⟩ [3,4] = (⟨true, [[3,4]], []⟩, ⟨[], false, false, none⟩) := by
  have h := classifier_failure_keeps_recording (fun _ => true)
    (fun _ => VadOutcome.failure) 1 ⟨true, [], []⟩ [3,4] rfl rfl
  exact h.trans (by decide)

/-- C8 counterexample: invoked with zero buffered chunks,
`stopUserSpeechRecording` does NOT fail with an EmptySegment error — no
such guard exists in lines 127–153 — it returns normally, resets the mode,
and hands the empty byte buffer to the WAV writer, which accepts it. -/
theorem empty_segment_guard_cex :
    stopUserSpeechRecording ⟨true, [], []⟩ = (⟨false, [], []⟩, ([] : List Nat)) ∧
    saveAudioToFile IOOutcome.ok [] = some [] := by decide

/-- C8 amended: finalization invoked with zero buffered frames produces an
EMPTY segment rather than failing (there is no EmptySegment guard); and
the session state is reset before the handoff is attempted, identically
whether the writer succeeds or fails, so an IOError never leaves the
machine in RECORDING. -/
theorem finalize_no_guard_and_resets (s : MicState) :
    (stopAndSave IOOutcome.ok ⟨true, [], s.audioBuffer⟩).2 = some [] ∧
    (∀ io, (stopAndSave io s).1 = ⟨false, s.speechBuffer, s.audioBuffer⟩) ∧
    (stopAndSave IOOutcome.ioError s).1.isRecording = false := by
  exact ⟨rfl, fun io => rfl, rfl⟩

/-- C9: during RECORDING every arriving chunk is appended to the speech
buffer before its endpoint classification is consulted, so the chunk that
triggers the silence event is itself part of the finalized segment
(trailing audio preserved). -/
theorem append_before_classification (wake : List Int → Bool)
    (vad : List Nat → VadOutcome) (fl : Nat) (s : MicState) (c : List Nat)
    (hrec : s.isRecording = true) :
    (micDataStep wake vad fl s c).1.speechBuffer = s.speechBuffer ++ [c] ∧
    ((micDataStep wake vad fl s c).2.silenceFired = true →
      (micDataStep wake vad fl s c).2.finalized =
        some ((s.speechBuffer ++ [c]).flatten)) := by
  by_cases hv : vad c = VadOutcome.event VadEvent.silence
  · rw [micDataStep_recording_silence wake vad fl s c hrec hv]
    exact ⟨rfl, fun _ => rfl⟩
  · rw [micDataStep_recording_not_silence wake vad fl s c hrec hv]
    exact ⟨rfl, fun h => absurd h (by simp)⟩

/-- C9 witness: the SILENCE-classified chunk `[2,2]` is in the buffer and
in the finalized bytes. -/
theorem append_before_classification_witness :
    (micDataStep (fun _ => true) (fun _ => VadOutcome.event VadEvent.silence) 1
        ⟨true, [[1,1]], []⟩ [2,2]).1.speechBuffer = [[1,1],[2,2]] ∧
    (micDataStep (fun _ => true) (fun _ => VadOutcome.event VadEvent.silence) 1
        ⟨true, [[1,1]], []⟩ [2,2]).2.finalized = some [1,1,2,2] := by
  have h := append_before_classification (fun _ => true)
    (fun _ => VadOutcome.event VadEvent.silence) 1 ⟨true, [[1,1]], []⟩ [2,2] rfl
  exact ⟨h.1.trans (by decide), (h.2 (by decide)).trans (by decide)⟩

/-- C10: while RECORDING the segmenter's residual buffer is neither read
nor mutated — each recording step hands no frame to the scorer and keeps
`audioBuffer` unchanged; over a whole recording phase (silence step
included) `audioBuffer` is still what it was at the wake event; and in a
listening step the frames scanned are drained from the front of the stale
residual followed by the new chunk, so the stale bytes are the first ones
scanned in the next LISTENING phase. -/
theorem residual_frozen_while_recording (wake : List Int → Bool)
    (vad : List Nat → VadOutcome) (fl : Nat) :
    (∀ (s : MicState) (c : List Nat), s.isRecording = true →
      (micDataStep wake vad fl s c).1.audioBuffer = s.audioBuffer ∧
      (micDataStep wake vad fl s c).2.framesScanned = []) ∧
    (∀ (s : MicState) (cs : List (List Nat)), s.isRecording = true →
      (∀ o ∈ ((runSteps wake vad fl s cs).2.dropLast), o.silenceFired = false) →
      (runSteps wake vad fl s cs).1.audioBuffer = s.audioBuffer) ∧
    (∀ (s : MicState) (c : List Nat), s.isRecording = false →
      ((micDataStep wake vad fl s c).2.framesScanned).flatten ++
        (micDataStep wake vad fl s c).1.audioBuffer = s.audioBuffer ++ c) := by
  refine ⟨fun s c => micDataStep_recording_residual wake vad fl s c,
    fun s cs => runSteps_recording_residual wake vad fl cs s, ?_⟩
  intro s c hrec
  rw [micDataStep_listening wake vad fl s c hrec]
  by_cases hd : (wakeScanLoop wake fl (s.audioBuffer ++ c)).2.2
  · simp only [hd, if_true]
    exact wakeScanLoop_flatten wake fl (s.audioBuffer ++ c)
  · simp only [hd, Bool.false_eq_true, if_false]
    exact wakeScanLoop_flatten wake fl (s.audioBuffer ++ c)

/-- C10 witness: a recording phase of two chunks ending in silence leaves
the stale residual `[7,7]` untouched, and the next listening chunk scans
it first. -/
theorem residual_frozen_while_recording_witness :
    (runSteps (fun _ => true)
        (fun c => if c = [9,9] then VadOutcome.event VadEvent.silence
                  else VadOutcome.event VadEvent.voice) 1
        ⟨true, [], [7,7]⟩ [[1,1],[9,9]]).1.audioBuffer = [7,7] ∧
    ((micDataStep (fun _ => false) (fun _ => VadOutcome.failure) 1
        ⟨false, [[1,1],[9,9]], [7,7]⟩ [8,8]).2.framesScanned).flatten ++
      (micDataStep (fun _ => false) (fun _ => VadOutcome.failure) 1
        ⟨false, [[1,1],[9,9]], [7,7]⟩ [8,8]).1.audioBuffer = [7,7] ++ [8,8] := by
  constructor
  · exact (residual_frozen_while_recording (fun _ => true)
      (fun c => if c = [9,9] then VadOutcome.event VadEvent.silence
                else VadOutcome.event VadEvent.voice) 1).2.1
      ⟨true, [], [7,7]⟩ [[1,1],[9,9]] rfl (by decide)
  · exact (residual_frozen_while_recording (fun _ => false)
      (fun _ => VadOutcome.failure) 1).2.2 ⟨false, [[1,1],[9,9]], [7,7]⟩ [8,8] rfl

end Mark
